import Mathlib

/-!
Verification of the capture/alignment core of the mc-multiplayer-data
repository.  The definitions below are shallow embeddings of:

* `_match_actions_to_frames`, `_has_wallclock_timestamps`, the dropped-gap
  diagnostic and the alignment gate of `src/postprocess/process_recordings.py`;
* `_write_frames_by_index` of the same file (the frame re-encoder);
* `process_frame_worker`, `recvall` and `recvint` and the streaming read
  loop of `src/controller/act_recorder/act_recorder.py`.

Timestamps are modelled as rationals; video frames and decoded images are
abstract.  Python `round` (round half to even) is modelled by `pyRound`.
-/

/-- Python `round` on a rational: round half to even. -/
def pyRound (q : ℚ) : ℤ :=
  let f := ⌊q⌋
  let r := q - f
  if r < 1 / 2 then f
  else if r > 1 / 2 then f + 1
  else if f % 2 = 0 then f else f + 1

/-- Python `round(q, 4)`. -/
def round4 (q : ℚ) : ℚ := (pyRound (q * 10000) : ℚ) / 10000

/-- Python `round(q, 3)` (used for position coordinates at capture time). -/
def round3 (q : ℚ) : ℚ := (pyRound (q * 1000) : ℚ) / 1000

/-!  ## Stream Matcher (`_match_actions_to_frames`)  -/

/-- The inner `while` loop of `_match_actions_to_frames`: advance `ptr`
while `ptr < frameTimes.length` and `frameTimes[ptr] < a`.  The fuel is an
upper bound on the number of iterations; `frameTimes.length` always
suffices (each step increments `ptr`, and once `ptr` reaches the length
the loop stops). -/
def advancePtrAux (frameTimes : List ℚ) (a : ℚ) : ℕ → ℕ → ℕ
  | 0, ptr => ptr
  | fuel + 1, ptr =>
    if h : ptr < frameTimes.length then
      if frameTimes.get ⟨ptr, h⟩ < a then advancePtrAux frameTimes a fuel (ptr + 1)
      else ptr
    else ptr

/-- Advance the frame pointer to the first frame at or after `a`. -/
def advancePtr (frameTimes : List ℚ) (a : ℚ) (ptr : ℕ) : ℕ :=
  advancePtrAux frameTimes a frameTimes.length ptr

/-- The main `for action_idx, action_time in enumerate(action_times)` loop of
`_match_actions_to_frames`.  Returns `(frame_indices, time_deltas,
unmatched_actions_end)`.  `nA` is `n_actions`, `idx` the current
`action_idx`, `ptr` the current `frame_ptr`.  On exhausting the frames the
loop breaks with `unmatched_actions_end = n_actions - action_idx`; the
recorded pointer is NOT advanced after a match. -/
def matchLoop (frameTimes : List ℚ) (nA : ℕ) : List ℚ → ℕ → ℕ → List ℕ × List ℚ × ℕ
  | [], _, _ => ([], [], 0)
  | a :: rest, idx, ptr =>
    let p := advancePtr frameTimes a ptr
    if h : p < frameTimes.length then
      let r := matchLoop frameTimes nA rest (idx + 1) p
      (p :: r.1, (frameTimes.get ⟨p, h⟩ - a) :: r.2.1, r.2.2)
    else
      ([], [], nA - idx)

/-- One entry of the `dropped_frame_gaps` list. -/
structure GapEntry where
  frameBefore : ℕ
  frameAfter : ℕ
  gapSec : ℚ
  expectedFramesMissed : ℤ
deriving DecidableEq, Repr

/-- Body of the dropped-frame-gap loop at index `i` (`for i in range(1,
n_frames)`): report the pair `(i-1, i)` when the gap exceeds
`1.8 * (1/fps)` and `frame_timestamps[i-1] - rec_start > 10`. -/
def gapEntryAt (frameTimes : List ℚ) (fps : ℚ) (i : ℕ) : Option GapEntry :=
  let gap := frameTimes.getD i 0 - frameTimes.getD (i - 1) 0
  if gap > (1 / fps) * 1.8 ∧ frameTimes.getD (i - 1) 0 - frameTimes.getD 0 0 > 10 then
    some { frameBefore := i - 1, frameAfter := i, gapSec := round4 gap,
           expectedFramesMissed := pyRound (gap / (1 / fps)) - 1 }
  else none

/-- The `dropped_frame_gaps` list computed by `_match_actions_to_frames`. -/
def droppedGaps (frameTimes : List ℚ) (fps : ℚ) : List GapEntry :=
  (List.range' 1 (frameTimes.length - 1)).filterMap (gapEntryAt frameTimes fps)

/-- The diagnostics dict of `_match_actions_to_frames` (plus the concrete
gap list, which the Python code keeps in a local and summarises by its
length in the dict). -/
structure Diagnostics where
  nActions : ℕ
  nFrames : ℕ
  nMatched : ℕ
  skippedFramesStart : ℕ
  skippedFramesEnd : ℕ
  unmatchedActionsStart : ℕ
  unmatchedActionsEnd : ℕ
  meanDeltaSec : ℚ
  maxAbsDeltaSec : ℚ
  minDeltaSec : ℚ
  maxDeltaSec : ℚ
  duplicateFrameCount : ℕ
  interiorUnconsumedCount : ℕ
  droppedFrameGapsList : List GapEntry
  droppedFrameGaps : ℕ
deriving DecidableEq, Repr

/-- Boundary grace period (`_BOUNDARY_GRACE_SEC`). -/
def boundaryGraceSec : ℚ := 10

/-- `_match_actions_to_frames(actions, frame_timestamps, fps)`.  The Python
function uses the action dicts only through the epochTime field and
their count, so it is embedded over the list of action times. -/
def matchActionsToFrames (actionTimes : List ℚ) (frameTimes : List ℚ) (fps : ℚ) :
    List ℕ × Diagnostics :=
  let nActions := actionTimes.length
  let nFrames := frameTimes.length
  let res := matchLoop frameTimes nActions actionTimes 0 0
  let frameIndices := res.1
  let timeDeltas := res.2.1
  let unmatchedActionsEnd := res.2.2
  let skippedFramesStart := frameIndices.headD 0
  let skippedFramesEnd :=
    match frameIndices with
    | [] => 0
    | _ => nFrames - 1 - frameIndices.getLastD 0
  let unmatchedActionsStart :=
    if frameTimes = [] then 0
    else (actionTimes.takeWhile (fun t => t < frameTimes.headD 0)).length
  let duplicateFrameCount :=
    (frameIndices.dedup.filter (fun i => 1 < frameIndices.count i)).length
  let recStart := frameTimes.headD 0
  let recEnd := frameTimes.getLastD 0
  let interiorUnconsumed :=
    (List.range nFrames).filter (fun i =>
      i ∉ frameIndices ∧
      ¬(frameTimes.getD i 0 - recStart ≤ boundaryGraceSec) ∧
      ¬(recEnd - frameTimes.getD i 0 ≤ boundaryGraceSec))
  let gaps := droppedGaps frameTimes fps
  (frameIndices,
   { nActions := nActions
     nFrames := nFrames
     nMatched := frameIndices.length
     skippedFramesStart := skippedFramesStart
     skippedFramesEnd := skippedFramesEnd
     unmatchedActionsStart := unmatchedActionsStart
     unmatchedActionsEnd := unmatchedActionsEnd
     meanDeltaSec := if timeDeltas = [] then 0 else timeDeltas.sum / timeDeltas.length
     maxAbsDeltaSec := (timeDeltas.map (fun d => |d|)).foldr max 0
     minDeltaSec := match timeDeltas with | [] => 0 | d :: ds => ds.foldl min d
     maxDeltaSec := match timeDeltas with | [] => 0 | d :: ds => ds.foldl max d
     duplicateFrameCount := duplicateFrameCount
     interiorUnconsumedCount := interiorUnconsumed.length
     droppedFrameGapsList := gaps
     droppedFrameGaps := gaps.length })

/-!  ## Frame Re-encoder (`_write_frames_by_index`)  -/

/-- Errors raised by `_write_frames_by_index`: the empty-request
`ValueError`, the out-of-range `RuntimeError` (naming the action position
and the frame index), and the failed-read `RuntimeError` (naming the
frame index). -/
inductive WriteError where
  | noFramesRequested : WriteError
  | outOfRange (actionIndex : ℕ) (frameIndex : ℤ) (totalFrames : ℤ) : WriteError
  | readFailed (frameIndex : ℤ) : WriteError
deriving DecidableEq, Repr

/-- Whether a `WriteError` is the out-of-range error. -/
def WriteError.isOutOfRange : WriteError → Bool
  | .outOfRange _ _ _ => true
  | _ => false

/-- The `for i, frame_idx in enumerate(frame_indices)` loop of
`_write_frames_by_index`.  `readFrame p` models `cap.read()` with the
capture positioned at frame `p` (`none` = `ret == False`); `lastIdx`,
`lastFrame` are `last_frame_idx` / `last_frame`; `capPos` is the current decoder
position (0 on open, set by `cap.set(CAP_PROP_POS_FRAMES, ...)`,
incremented by each read); `acc` collects the frames written (reversed). -/
def writeGo {Frame : Type} (readFrame : ℤ → Option Frame) (totalFrames : ℤ) :
    List ℤ → ℕ → ℤ → Option Frame → ℤ → List Frame → Except WriteError (List Frame)
  | [], _, _, _, _, acc => .ok acc.reverse
  | idx :: rest, i, lastIdx, lastFrame, capPos, acc =>
    if idx < 0 ∨ totalFrames ≤ idx then
      .error (.outOfRange i idx totalFrames)
    else if hc : lastFrame.isSome ∧ idx = lastIdx then
      writeGo readFrame totalFrames rest (i + 1) lastIdx lastFrame capPos
        (lastFrame.get hc.1 :: acc)
    else
      let pos := if idx ≠ lastIdx + 1 then idx else capPos
      match readFrame pos with
      | none => .error (.readFailed idx)
      | some frame =>
        writeGo readFrame totalFrames rest (i + 1) idx (some frame) (pos + 1)
          (frame :: acc)

/-- `_write_frames_by_index(recording_path, frame_indices, fps, output_path)`:
returns the list of frames written to the output video, or the error that
aborted the operation. -/
def writeFramesByIndex {Frame : Type} (readFrame : ℤ → Option Frame)
    (totalFrames : ℤ) (frameIndices : List ℤ) : Except WriteError (List Frame) :=
  if frameIndices = [] then .error .noFramesRequested
  else writeGo readFrame totalFrames frameIndices 0 (-1) none 0 []

/-!  ## Capture-server worker (`process_frame_worker`)  -/

/-- An image as received by the worker from the queue: `None`, a non-ndarray
value, or an ndarray with a given element count. -/
inductive RecvImage where
  | noImage : RecvImage
  | badType : RecvImage
  | mat (size : ℕ) : RecvImage
deriving DecidableEq, Repr

/-- The validity checks of the worker, in source order: `img is None`, then
`not isinstance(img, np.ndarray)`, then `img.size == 0`; only a non-empty
ndarray is appended to `frames`. -/
def RecvImage.valid : RecvImage → Bool
  | .mat n => n ≠ 0
  | _ => false

/-- The position dict as it arrives on the worker queue (after the network
loop added `frame_count`). -/
structure InputPos where
  renderTime : ℚ
  frameCount : ℕ
  x : ℚ
  y : ℚ
  z : ℚ
  yaw : ℚ
  pitch : ℚ
deriving DecidableEq, Repr

/-- One item of the worker queue, with the wall-clock time (`time.time()`)
at which the worker processes it. -/
def WorkItem : Type := ℚ × RecvImage × InputPos

/-- An action record as appended to `action_data` by the worker. -/
structure ActionRecord where
  renderTime : ℚ
  relativeTimeMs : ℚ
  epochTime : ℚ
  episodeId : ℕ
  frameCount : ℕ
  x : ℚ
  y : ℚ
  z : ℚ
  yaw : ℚ
  pitch : ℚ
deriving DecidableEq, Repr

/-- The mutable state of the worker across queue items. -/
structure WorkerState where
  firstRenderTime : Option ℚ
  episodeStartEpoch : Option ℚ
  renderTimeIsEpoch : Bool
  actionData : List ActionRecord
  frames : List RecvImage
deriving DecidableEq, Repr

/-- The worker state at thread start. -/
def initialWorkerState : WorkerState :=
  { firstRenderTime := none, episodeStartEpoch := none,
    renderTimeIsEpoch := false, actionData := [], frames := [] }

/-- One iteration of the worker loop body on a dequeued `(img, pos)` pair:
anchor the epoch on the `renderTime` of the first record (epoch-millisecond
heuristic at `1e12`), compute `relativeTimeMs` / `epochTime`, round the
position floats to 3 decimals, append the record, and (when rendering is
enabled) append the image if it passes the validity checks. -/
def processItem (viewerRenderingDisabled : Bool) (episodeId : ℕ)
    (st : WorkerState) (item : WorkItem) : WorkerState :=
  let nowEpoch := item.1
  let img := item.2.1
  let pos := item.2.2
  let renderTime := pos.renderTime
  let anchor :=
    match st.firstRenderTime with
    | some f => (f, st.episodeStartEpoch.getD 0, st.renderTimeIsEpoch)
    | none =>
      if renderTime ≥ 1000000000000 then (renderTime, renderTime / 1000, true)
      else (renderTime, nowEpoch - renderTime / 1000, false)
  let firstRT := anchor.1
  let startEpoch := anchor.2.1
  let isEpoch := anchor.2.2
  let relativeMs := renderTime - firstRT
  let epochTime := if isEpoch then renderTime / 1000 else startEpoch + relativeMs / 1000
  let record : ActionRecord :=
    { renderTime := renderTime, relativeTimeMs := relativeMs, epochTime := epochTime,
      episodeId := episodeId, frameCount := pos.frameCount,
      x := round3 pos.x, y := round3 pos.y, z := round3 pos.z,
      yaw := round3 pos.yaw, pitch := round3 pos.pitch }
  { firstRenderTime := some firstRT
    episodeStartEpoch := some startEpoch
    renderTimeIsEpoch := isEpoch
    actionData := st.actionData ++ [record]
    frames :=
      if viewerRenderingDisabled then st.frames
      else if img.valid then st.frames ++ [img] else st.frames }

/-- The whole worker loop over the queue items received before the `None`
sentinel. -/
def runWorker (viewerRenderingDisabled : Bool) (episodeId : ℕ)
    (items : List WorkItem) : WorkerState :=
  items.foldl (processItem viewerRenderingDisabled episodeId) initialWorkerState

/-- Image component of a queue item. -/
def itemImage (item : WorkItem) : RecvImage := item.2.1

/-!  ## Wire codec (`recvall` / `recvint`) and the position-frame read  -/

/-- `recvall(sock, count)` over the bytes the connection delivers before
closing: exactly `count` bytes if available, otherwise `None` (a closed or
erroring socket makes `recv` return empty / raise, and the Python loop
then returns `None`). -/
def recvall (stream : List ℕ) (count : ℕ) : Option (List ℕ × List ℕ) :=
  if count ≤ stream.length then some (stream.take count, stream.drop count) else none

/-- Little-endian byte-list decoding, as in int.from_bytes with little order. -/
def fromLE (bs : List ℕ) : ℕ := bs.foldr (fun b acc => b + 256 * acc) 0

/-- `recvint(sock)`: decode 4 length bytes; `none` models the `TypeError`
raised by `int.from_bytes(None, ...)` when `recvall` returned `None`. -/
def recvint (stream : List ℕ) : Option (ℕ × List ℕ) :=
  (recvall stream 4).map (fun p => (fromLE p.1, p.2))

/-- Outcome of one position-frame read in the streaming loop of the server. -/
inductive PosReadResult where
  | normalEnd : PosReadResult
  | transportError : PosReadResult
  | frame (payload : List ℕ) (rest : List ℕ) : PosReadResult
deriving DecidableEq, Repr

/-- The position read of the server, which catches any recvint exception
and turns it into a zero length; a zero length is the normal end of the episode; otherwise
`recvall` the payload, and a `None` payload is an abnormal end
(`retcode = 1`). -/
def readPositionFrame (stream : List ℕ) : PosReadResult :=
  let lenRead :=
    match recvint stream with
    | some p => p
    | none => (0, stream)
  let len := lenRead.1
  let rest := lenRead.2
  if len = 0 then .normalEnd
  else
    match recvall rest len with
    | none => .transportError
    | some p => .frame p.1 p.2

/-!  ## Alignment gate (`_has_wallclock_timestamps` / `align_recording`)  -/

/-- `_has_wallclock_timestamps(frame_timestamps, camera_meta)`: true when
the `wallclock_timestamps` metadata flag is truthy, or the first PTS is
greater than `1e9`. -/
def hasWallclockTimestamps (frameTimestamps : List ℚ) (wallclockFlag : Bool) : Bool :=
  if wallclockFlag then true
  else
    match frameTimestamps with
    | t :: _ => decide (t > 1000000000)
    | [] => false

/-- Errors raised by `align_recording` on the paths the matcher governs. -/
inductive AlignError where
  | notWallclock : AlignError
  | noMatches : AlignError
deriving DecidableEq, Repr

/-- The alignment-mode decision and matching step of `align_recording`:
`use_wallclock = frame_timestamps is not None and
_has_wallclock_timestamps(...)`; if false, raise; then match, and raise if
no action could be matched. -/
def alignOutcome (extracted : Option (List ℚ)) (wallclockFlag : Bool)
    (actionTimes : List ℚ) (fps : ℚ) : Except AlignError (List ℕ × Diagnostics) :=
  match extracted with
  | none => .error .notWallclock
  | some ts =>
    if hasWallclockTimestamps ts wallclockFlag then
      let r := matchActionsToFrames actionTimes ts fps
      if r.1 = [] then .error .noMatches else .ok r
    else .error .notWallclock

/-!  ## Helper lemmas  -/

theorem advancePtrAux_le (ft : List ℚ) (a : ℚ) :
    ∀ (fuel ptr : ℕ), ptr ≤ advancePtrAux ft a fuel ptr := by
  intro fuel
  induction fuel with
  | zero => intro ptr; simp [advancePtrAux]
  | succ n ih =>
    intro ptr
    simp only [advancePtrAux]
    split
    · split
      · exact le_trans (Nat.le_succ ptr) (ih (ptr + 1))
      · exact le_refl ptr
    · exact le_refl ptr

theorem advancePtr_le (ft : List ℚ) (a : ℚ) (ptr : ℕ) : ptr ≤ advancePtr ft a ptr :=
  advancePtrAux_le ft a ft.length ptr

theorem matchLoop_fst_mem_ge (ft : List ℚ) (nA : ℕ) :
    ∀ (ats : List ℚ) (idx ptr x : ℕ), x ∈ (matchLoop ft nA ats idx ptr).1 → ptr ≤ x := by
  intro ats
  induction ats with
  | nil => intro idx ptr x hx; simp [matchLoop] at hx
  | cons a rest ih =>
    intro idx ptr x hx
    simp only [matchLoop] at hx
    by_cases h : advancePtr ft a ptr < ft.length
    · rw [dif_pos h] at hx
      rcases List.mem_cons.mp hx with h1 | h2
      · exact h1 ▸ advancePtr_le ft a ptr
      · exact le_trans (advancePtr_le ft a ptr) (ih (idx + 1) (advancePtr ft a ptr) x h2)
    · rw [dif_neg h] at hx
      simp at hx

theorem matchLoop_fst_sorted (ft : List ℚ) (nA : ℕ) :
    ∀ (ats : List ℚ) (idx ptr : ℕ),
      ((matchLoop ft nA ats idx ptr).1).Sorted (· ≤ ·) := by
  intro ats
  induction ats with
  | nil => intro idx ptr; simp [matchLoop]
  | cons a rest ih =>
    intro idx ptr
    simp only [matchLoop]
    by_cases h : advancePtr ft a ptr < ft.length
    · rw [dif_pos h]
      refine List.sorted_cons.mpr ⟨?_, ih (idx + 1) (advancePtr ft a ptr)⟩
      intro b hb
      exact matchLoop_fst_mem_ge ft nA rest (idx + 1) (advancePtr ft a ptr) b hb
    · rw [dif_neg h]
      simp

theorem matchLoop_fst_mem_lt (ft : List ℚ) (nA : ℕ) :
    ∀ (ats : List ℚ) (idx ptr x : ℕ),
      x ∈ (matchLoop ft nA ats idx ptr).1 → x < ft.length := by
  intro ats
  induction ats with
  | nil => intro idx ptr x hx; simp [matchLoop] at hx
  | cons a rest ih =>
    intro idx ptr x hx
    simp only [matchLoop] at hx
    by_cases h : advancePtr ft a ptr < ft.length
    · rw [dif_pos h] at hx
      rcases List.mem_cons.mp hx with h1 | h2
      · exact h1 ▸ h
      · exact ih (idx + 1) (advancePtr ft a ptr) x h2
    · rw [dif_neg h] at hx
      simp at hx

theorem matchActionsToFrames_fst (actionTimes frameTimes : List ℚ) (fps : ℚ) :
    (matchActionsToFrames actionTimes frameTimes fps).1 =
      (matchLoop frameTimes actionTimes.length actionTimes 0 0).1 := by
  simp [matchActionsToFrames]

theorem matchActionsToFrames_gaps (actionTimes frameTimes : List ℚ) (fps : ℚ) :
    (matchActionsToFrames actionTimes frameTimes fps).2.droppedFrameGapsList =
      droppedGaps frameTimes fps := by
  simp [matchActionsToFrames]

/-!  ## Claim theorems  -/

/-- C1: for action times `[0,1,2,3]` and frame times `[0,1,3]`, the matcher
returns `frame_indices = [0,1,2,2]` with `duplicate_frame_count = 1`, and
in general the frame pointer is not advanced after recording a match: the
loop continues on the remaining actions from the same pointer value. -/
theorem matcher_duplicate_semantics :
    (matchActionsToFrames [0, 1, 2, 3] [0, 1, 3] 20).1 = [0, 1, 2, 2] ∧
    (matchActionsToFrames [0, 1, 2, 3] [0, 1, 3] 20).2.duplicateFrameCount = 1 ∧
    ∀ (ft : List ℚ) (nA idx ptr : ℕ) (a : ℚ) (rest : List ℚ),
      advancePtr ft a ptr < ft.length →
      (matchLoop ft nA (a :: rest) idx ptr).1 =
        advancePtr ft a ptr :: (matchLoop ft nA rest (idx + 1) (advancePtr ft a ptr)).1 := by
  refine ⟨by decide, by decide, ?_⟩
  intro ft nA idx ptr a rest h
  simp only [matchLoop]
  rw [dif_pos h]

/-- Witness for the general clause of C1 at a concrete input. -/
theorem matcher_duplicate_semantics_witness :
    advancePtr [0, 1, 3] (2 : ℚ) 2 < ([0, 1, 3] : List ℚ).length ∧
    (matchLoop [0, 1, 3] 4 ((2 : ℚ) :: [3]) 2 2).1 =
      advancePtr [0, 1, 3] (2 : ℚ) 2 ::
        (matchLoop [0, 1, 3] 4 [3] 3 (advancePtr [0, 1, 3] (2 : ℚ) 2)).1 :=
  ⟨by decide, matcher_duplicate_semantics.2.2 [0, 1, 3] 4 2 2 2 [3] (by decide)⟩

/-- C2: for ascending action times and frame times the returned
`frame_indices` list is non-decreasing. -/
theorem matcher_monotonic (actionTimes frameTimes : List ℚ) (fps : ℚ)
    (ha : actionTimes.Sorted (· ≤ ·)) (hf : frameTimes.Sorted (· ≤ ·)) :
    ((matchActionsToFrames actionTimes frameTimes fps).1).Sorted (· ≤ ·) := by
  rw [matchActionsToFrames_fst]
  exact matchLoop_fst_sorted frameTimes actionTimes.length actionTimes 0 0

/-- Witness for C2 at a concrete input. -/
theorem matcher_monotonic_witness :
    ([0, 1, 2, 3] : List ℚ).Sorted (· ≤ ·) ∧ ([0, 1, 3] : List ℚ).Sorted (· ≤ ·) ∧
    ((matchActionsToFrames [0, 1, 2, 3] [0, 1, 3] 20).1).Sorted (· ≤ ·) :=
  ⟨by decide, by decide,
    matcher_monotonic [0, 1, 2, 3] [0, 1, 3] 20 (by decide) (by decide)⟩

/-- C5 counterexample: for frame times `[5,6,7]` and
`action_times = [1,2,5,6]` the matcher emits an index for every action —
`frame_indices = [0,0,0,1]`, of length 4, not 2 — so actions preceding the
first frame DO receive a frame index (index 0). -/
theorem unmatched_start_counterexample :
    (matchActionsToFrames [1, 2, 5, 6] [5, 6, 7] 20).1 = [0, 0, 0, 1] ∧
    (matchActionsToFrames [1, 2, 5, 6] [5, 6, 7] 20).1.length ≠ 2 := by
  exact ⟨by decide, by decide⟩

/-- C5 amended: `unmatched_actions_start = 2` is reported as a diagnostic
counter, but all four actions receive a frame index:
`frame_indices = [0,0,0,1]` — actions whose time precedes the first frame
are clamped to index 0, and the last two actions receive indices `[0,1]`. -/
theorem unmatched_start_amended :
    (matchActionsToFrames [1, 2, 5, 6] [5, 6, 7] 20).2.unmatchedActionsStart = 2 ∧
    (matchActionsToFrames [1, 2, 5, 6] [5, 6, 7] 20).1 = [0, 0, 0, 1] ∧
    (matchActionsToFrames [1, 2, 5, 6] [5, 6, 7] 20).1.drop 2 = [0, 1] := by
  exact ⟨by decide, by decide, by decide⟩

theorem writeGo_ok {Frame : Type} (readFrame : ℤ → Option Frame) (total : ℤ)
    (src : ℤ → Frame)
    (hread : ∀ p, 0 ≤ p → p < total → readFrame p = some (src p)) :
    ∀ (rest : List ℤ) (i : ℕ) (lastIdx : ℤ) (lastFrame : Option Frame)
      (capPos : ℤ) (acc : List Frame),
      (∀ idx ∈ rest, 0 ≤ idx ∧ idx < total) →
      capPos = lastIdx + 1 →
      (∀ f, lastFrame = some f → f = src lastIdx) →
      writeGo readFrame total rest i lastIdx lastFrame capPos acc =
        .ok (acc.reverse ++ rest.map src) := by
  intro rest
  induction rest with
  | nil => intro i lastIdx lastFrame capPos acc _ _ _; simp [writeGo]
  | cons idx rest ih =>
    intro i lastIdx lastFrame capPos acc hrange hcap hinv
    obtain ⟨hnn, hlt⟩ := hrange idx (List.mem_cons_self idx rest)
    have hnotbad : ¬(idx < 0 ∨ total ≤ idx) := by
      push_neg
      exact ⟨hnn, hlt⟩
    simp only [writeGo]
    rw [if_neg hnotbad]
    by_cases hc : lastFrame.isSome ∧ idx = lastIdx
    · rw [dif_pos hc]
      obtain ⟨f, hf⟩ := Option.isSome_iff_exists.mp hc.1
      subst hf
      have hfe : f = src idx := by
        rw [hc.2]
        exact hinv f rfl
      have hrec := ih (i + 1) lastIdx (some f) capPos (f :: acc)
        (fun j hj => hrange j (List.mem_cons_of_mem idx hj)) hcap hinv
      simp only [Option.get_some]
      rw [hrec]
      simp [hfe]
    · rw [dif_neg hc]
      have hpos : (if idx ≠ lastIdx + 1 then idx else capPos) = idx := by
        by_cases he : idx = lastIdx + 1
        · rw [if_neg (by simpa using he), hcap, he]
        · rw [if_pos he]
      rw [hpos, hread idx hnn hlt]
      have hrec := ih (i + 1) idx (some (src idx)) (idx + 1) (src idx :: acc)
        (fun j hj => hrange j (List.mem_cons_of_mem idx hj)) rfl
        (fun f hf => (Option.some_inj.mp hf).symm)
      show writeGo readFrame total rest (i + 1) idx (some (src idx)) (idx + 1)
        (src idx :: acc) = Except.ok (acc.reverse ++ List.map src (idx :: rest))
      rw [hrec]
      simp

theorem writeGo_err_mem {Frame : Type} (readFrame : ℤ → Option Frame) (total : ℤ) :
    ∀ (rest : List ℤ) (i : ℕ) (lastIdx : ℤ) (lastFrame : Option Frame)
      (capPos : ℤ) (acc : List Frame),
      (∀ idx ∈ rest, 0 ≤ idx ∧ idx < total) →
      ∀ e, writeGo readFrame total rest i lastIdx lastFrame capPos acc = .error e →
        ∃ idx ∈ rest, e = .readFailed idx := by
  intro rest
  induction rest with
  | nil => intro i lastIdx lastFrame capPos acc _ e he; simp [writeGo] at he
  | cons idx rest ih =>
    intro i lastIdx lastFrame capPos acc hrange e he
    obtain ⟨hnn, hlt⟩ := hrange idx (List.mem_cons_self idx rest)
    have hnotbad : ¬(idx < 0 ∨ total ≤ idx) := by
      push_neg
      exact ⟨hnn, hlt⟩
    simp only [writeGo] at he
    rw [if_neg hnotbad] at he
    by_cases hc : lastFrame.isSome ∧ idx = lastIdx
    · rw [dif_pos hc] at he
      obtain ⟨j, hj, hje⟩ := ih (i + 1) lastIdx lastFrame capPos
        (lastFrame.get hc.1 :: acc)
        (fun j hj => hrange j (List.mem_cons_of_mem idx hj)) e he
      exact ⟨j, List.mem_cons_of_mem idx hj, hje⟩
    · rw [dif_neg hc] at he
      rcases hr : readFrame (if idx ≠ lastIdx + 1 then idx else capPos) with _ | frame
      · rw [hr] at he
        simp only [Except.error.injEq] at he
        exact ⟨idx, List.mem_cons_self idx rest, he.symm⟩
      · rw [hr] at he
        obtain ⟨j, hj, hje⟩ := ih (i + 1) idx (some frame)
          ((if idx ≠ lastIdx + 1 then idx else capPos) + 1) (frame :: acc)
          (fun j hj => hrange j (List.mem_cons_of_mem idx hj)) e he
        exact ⟨j, List.mem_cons_of_mem idx hj, hje⟩

theorem writeGo_oor {Frame : Type} (readFrame : ℤ → Option Frame) (total : ℤ)
    (hread : ∀ p, 0 ≤ p → p < total → (readFrame p).isSome) :
    ∀ (j : ℕ) (rest : List ℤ) (i : ℕ) (lastIdx : ℤ) (lastFrame : Option Frame)
      (capPos : ℤ) (acc : List Frame),
      (∀ idx ∈ rest.take j, 0 ≤ idx ∧ idx < total) →
      j < rest.length →
      (rest.getD j 0 < 0 ∨ total ≤ rest.getD j 0) →
      capPos = lastIdx + 1 →
      writeGo readFrame total rest i lastIdx lastFrame capPos acc =
        .error (.outOfRange (i + j) (rest.getD j 0) total) := by
  intro j
  induction j with
  | zero =>
    intro rest i lastIdx lastFrame capPos acc _ hlen hbad _
    match rest with
    | [] => simp at hlen
    | idx :: rest =>
      simp only [List.getD_cons_zero] at hbad
      simp only [writeGo]
      rw [if_pos hbad]
      simp
  | succ j ih =>
    intro rest i lastIdx lastFrame capPos acc hrange hlen hbad hcap
    match rest with
    | [] => simp at hlen
    | idx :: rest =>
      obtain ⟨hnn, hlt⟩ := hrange idx (by simp [List.take_succ_cons])
      have hnotbad : ¬(idx < 0 ∨ total ≤ idx) := by
        push_neg
        exact ⟨hnn, hlt⟩
      simp only [List.getD_cons_succ] at hbad
      simp only [List.length_cons, Nat.succ_lt_succ_iff] at hlen
      have hrange' : ∀ k ∈ rest.take j, 0 ≤ k ∧ k < total := by
        intro k hk
        exact hrange k (by simp [List.take_succ_cons, hk])
      have harith : i + (j + 1) = (i + 1) + j := by omega
      simp only [writeGo]
      rw [if_neg hnotbad]
      by_cases hc : lastFrame.isSome ∧ idx = lastIdx
      · rw [dif_pos hc]
        rw [ih rest (i + 1) lastIdx lastFrame capPos (lastFrame.get hc.1 :: acc)
          hrange' hlen hbad hcap]
        rw [List.getD_cons_succ, harith]
      · rw [dif_neg hc]
        have hpos : (if idx ≠ lastIdx + 1 then idx else capPos) = idx := by
          by_cases he : idx = lastIdx + 1
          · rw [if_neg (by simpa using he), hcap, he]
          · rw [if_pos he]
        rw [hpos]
        obtain ⟨frame, hframe⟩ := Option.isSome_iff_exists.mp (hread idx hnn hlt)
        rw [hframe]
        show writeGo readFrame total rest (i + 1) idx (some frame) (idx + 1)
            (frame :: acc) =
          Except.error
            (WriteError.outOfRange (i + (j + 1)) ((idx :: rest).getD (j + 1) 0) total)
        rw [ih rest (i + 1) idx (some frame) (idx + 1) (frame :: acc)
          hrange' hlen hbad rfl]
        rw [List.getD_cons_succ, harith]

/-- C8: for a non-empty index list whose indices all lie in
`[0, totalFrames)` and when every in-range decode succeeds, the re-encoder
writes exactly one output frame per requested index, the i-th written
frame being the source frame at `frame_indices[i]`; an empty index list is
rejected; the first out-of-range index aborts with an error naming the
failing action position and frame index; under in-range indices any abort
is a failed-decode error naming the requested frame. -/
theorem reencoder_frame_count {Frame : Type} (readFrame : ℤ → Option Frame)
    (total : ℤ) (src : ℤ → Frame) (fi : List ℤ) :
    (fi ≠ [] → (∀ idx ∈ fi, 0 ≤ idx ∧ idx < total) →
      (∀ p, 0 ≤ p → p < total → readFrame p = some (src p)) →
      writeFramesByIndex readFrame total fi = .ok (fi.map src) ∧
      (fi.map src).length = fi.length) ∧
    (writeFramesByIndex readFrame total ([] : List ℤ) = .error .noFramesRequested) ∧
    (∀ j : ℕ, (∀ p, 0 ≤ p → p < total → (readFrame p).isSome) →
      (∀ idx ∈ fi.take j, 0 ≤ idx ∧ idx < total) → j < fi.length →
      (fi.getD j 0 < 0 ∨ total ≤ fi.getD j 0) →
      writeFramesByIndex readFrame total fi =
        .error (.outOfRange j (fi.getD j 0) total)) ∧
    (fi ≠ [] → (∀ idx ∈ fi, 0 ≤ idx ∧ idx < total) → ∀ e,
      writeFramesByIndex readFrame total fi = .error e →
      ∃ idx ∈ fi, e = .readFailed idx) := by
  refine ⟨?_, by simp [writeFramesByIndex], ?_, ?_⟩
  · intro hne hrange hread
    constructor
    · rw [writeFramesByIndex, if_neg hne]
      have h := writeGo_ok readFrame total src hread fi 0 (-1) none 0 []
        hrange (by ring) (fun f hf => by simp at hf)
      rw [h]
      simp
    · exact List.length_map fi src
  · intro j hread hrange hlen hbad
    have hne : fi ≠ [] := by
      intro h
      rw [h] at hlen
      simp at hlen
    rw [writeFramesByIndex, if_neg hne]
    have h := writeGo_oor readFrame total hread j fi 0 (-1) none 0 []
      hrange hlen hbad (by ring)
    rw [h]
    simp
  · intro hne hrange e he
    rw [writeFramesByIndex, if_neg hne] at he
    exact writeGo_err_mem readFrame total fi 0 (-1) none 0 [] hrange e he

/-- Witness for C8 at a concrete input. -/
theorem reencoder_frame_count_witness :
    ([0, 1, 1] : List ℤ) ≠ [] ∧
    writeFramesByIndex (fun p : ℤ => some p) 2 [0, 1, 1] =
      .ok (List.map (fun p => p) [0, 1, 1]) :=
  ⟨by decide,
    ((reencoder_frame_count (fun p : ℤ => some p) 2 (fun p => p) [0, 1, 1]).1
      (by decide) (by decide) (fun p h1 h2 => rfl)).1⟩

/-- C10: every index the matcher returns is a valid index into
`frame_times`, and consequently feeding the matcher output into the
re-encoder with `total_frames = len(frame_times)` can never produce the
out-of-range error. -/
theorem matcher_range_safety (actionTimes frameTimes : List ℚ) (fps : ℚ)
    (ha : actionTimes.Sorted (· ≤ ·)) (hf : frameTimes.Sorted (· ≤ ·))
    (hne : frameTimes ≠ []) :
    (∀ x ∈ (matchActionsToFrames actionTimes frameTimes fps).1, x < frameTimes.length) ∧
    ∀ {Frame : Type} (readFrame : ℤ → Option Frame) (e : WriteError),
      writeFramesByIndex readFrame (frameTimes.length : ℤ)
        (((matchActionsToFrames actionTimes frameTimes fps).1).map (fun n : ℕ => (n : ℤ))) =
        .error e →
      e.isOutOfRange = false := by
  have hmem : ∀ x ∈ (matchActionsToFrames actionTimes frameTimes fps).1,
      x < frameTimes.length := by
    intro x hx
    rw [matchActionsToFrames_fst] at hx
    exact matchLoop_fst_mem_lt frameTimes actionTimes.length actionTimes 0 0 x hx
  refine ⟨hmem, ?_⟩
  intro Frame readFrame e he
  have hrange : ∀ idx ∈ ((matchActionsToFrames actionTimes frameTimes fps).1).map
      (fun n : ℕ => (n : ℤ)), 0 ≤ idx ∧ idx < (frameTimes.length : ℤ) := by
    intro idx hidx
    obtain ⟨n, hn, hcast⟩ := List.mem_map.mp hidx
    subst hcast
    exact ⟨Int.natCast_nonneg n, by exact_mod_cast hmem n hn⟩
  by_cases hempty : ((matchActionsToFrames actionTimes frameTimes fps).1).map
      (fun n : ℕ => (n : ℤ)) = []
  · rw [hempty, writeFramesByIndex, if_pos rfl] at he
    simp only [Except.error.injEq] at he
    rw [← he]
    rfl
  · rw [writeFramesByIndex, if_neg hempty] at he
    obtain ⟨idx, _, hre⟩ := writeGo_err_mem readFrame (frameTimes.length : ℤ)
      (((matchActionsToFrames actionTimes frameTimes fps).1).map (fun n : ℕ => (n : ℤ)))
      0 (-1) none 0 [] hrange e he
    rw [hre]
    rfl

/-- Witness for C10 at a concrete input. -/
theorem matcher_range_safety_witness :
    ([0, 1, 2, 3] : List ℚ).Sorted (· ≤ ·) ∧ ([0, 1, 3] : List ℚ) ≠ [] ∧
    ∀ x ∈ (matchActionsToFrames [0, 1, 2, 3] [0, 1, 3] 20).1,
      x < ([0, 1, 3] : List ℚ).length :=
  ⟨by decide, by decide,
    (matcher_range_safety [0, 1, 2, 3] [0, 1, 3] 20 (by decide) (by decide)
      (by decide)).1⟩

theorem foldl_processItem_shape (eid : ℕ) :
    ∀ (items : List WorkItem) (st : WorkerState),
      ((items.foldl (processItem false eid) st).actionData.length =
        st.actionData.length + items.length) ∧
      (items.foldl (processItem false eid) st).frames =
        st.frames ++ (items.map itemImage).filter RecvImage.valid := by
  intro items
  induction items with
  | nil => intro st; simp
  | cons it rest ih =>
    intro st
    have hstep : (processItem false eid st it).actionData.length =
        st.actionData.length + 1 := by
      simp [processItem]
    have hframes : (processItem false eid st it).frames =
        st.frames ++ (if (itemImage it).valid then [itemImage it] else []) := by
      simp only [processItem, itemImage, Bool.false_eq_true, if_false]
      by_cases hv : it.2.1.valid
      · rw [if_pos hv, if_pos hv]
      · rw [if_neg hv, if_neg hv]
        simp
    constructor
    · have := (ih (processItem false eid st it)).1
      simp only [List.foldl_cons, List.length_cons]
      rw [this, hstep]
      omega
    · have := (ih (processItem false eid st it)).2
      simp only [List.foldl_cons, List.map_cons, List.filter_cons]
      rw [this, hframes]
      by_cases hv : (itemImage it).valid
      · rw [if_pos hv]
        simp [hv]
      · rw [if_neg hv]
        simp [hv]

/-- C3 counterexample: an episode with two action records, the first
carrying a valid image and the second a `None` image, yields two
ActionRecords but only one video frame — the video does NOT have one frame
per ActionRecord when a received image is invalid. -/
theorem worker_invalid_image_counterexample :
    (runWorker false 7 [((1000 : ℚ), RecvImage.mat 5,
        ⟨100, 0, 1, 2, 3, 0, 0⟩), ((1000 : ℚ), RecvImage.noImage,
        ⟨150, 1, 1, 2, 3, 0, 0⟩)]).actionData.length = 2 ∧
    (runWorker false 7 [((1000 : ℚ), RecvImage.mat 5,
        ⟨100, 0, 1, 2, 3, 0, 0⟩), ((1000 : ℚ), RecvImage.noImage,
        ⟨150, 1, 1, 2, 3, 0, 0⟩)]).frames.length = 1 := by
  exact ⟨by decide, by decide⟩

/-- C3 amended: with video capture enabled the worker appends one
ActionRecord per queue item, but a video frame only for items whose image
passes the validity checks (skipping invalid images without aborting);
hence frame `i` corresponds to `ActionRecord[i]` exactly when every image
in the episode is valid, and an episode with an invalid image has fewer
video frames than ActionRecords. -/
theorem worker_frame_correspondence (eid : ℕ) (items : List WorkItem) :
    (runWorker false eid items).actionData.length = items.length ∧
    (runWorker false eid items).frames =
      (items.map itemImage).filter RecvImage.valid ∧
    ((∀ it ∈ items, (itemImage it).valid) →
      (runWorker false eid items).frames = items.map itemImage ∧
      (runWorker false eid items).frames.length =
        (runWorker false eid items).actionData.length) := by
  have h := foldl_processItem_shape eid items initialWorkerState
  have hlen : (runWorker false eid items).actionData.length = items.length := by
    have := h.1
    simpa [runWorker, initialWorkerState] using this
  have hframes : (runWorker false eid items).frames =
      (items.map itemImage).filter RecvImage.valid := by
    have := h.2
    simpa [runWorker, initialWorkerState] using this
  refine ⟨hlen, hframes, ?_⟩
  intro hall
  have hfilter : (items.map itemImage).filter RecvImage.valid = items.map itemImage := by
    apply List.filter_eq_self.mpr
    intro img himg
    obtain ⟨it, hit, hcast⟩ := List.mem_map.mp himg
    rw [← hcast]
    exact hall it hit
  constructor
  · rw [hframes, hfilter]
  · rw [hframes, hfilter, List.length_map, hlen]

/-- Witness for the amended all-valid clause of C3 at a concrete input. -/
theorem worker_frame_correspondence_witness :
    (∀ it ∈ [((1000 : ℚ), RecvImage.mat 5, (⟨100, 0, 1, 2, 3, 0, 0⟩ : InputPos))],
      (itemImage it).valid) ∧
    (runWorker false 7 [((1000 : ℚ), RecvImage.mat 5,
        ⟨100, 0, 1, 2, 3, 0, 0⟩)]).frames =
      [((1000 : ℚ), RecvImage.mat 5,
        (⟨100, 0, 1, 2, 3, 0, 0⟩ : InputPos))].map itemImage :=
  ⟨by decide,
    ((worker_frame_correspondence 7 [((1000 : ℚ), RecvImage.mat 5,
      ⟨100, 0, 1, 2, 3, 0, 0⟩)]).2.2 (by decide)).1⟩


theorem processItem_fields (d : Bool) (eid : ℕ) (f : ℚ) (st : WorkerState)
    (it : WorkItem) (h1 : st.firstRenderTime = some f) :
    (processItem d eid st it).firstRenderTime = some f ∧
    (processItem d eid st it).episodeStartEpoch =
      some (st.episodeStartEpoch.getD 0) ∧
    (processItem d eid st it).renderTimeIsEpoch = st.renderTimeIsEpoch ∧
    (processItem d eid st it).actionData = st.actionData ++
      [{ renderTime := it.2.2.renderTime,
         relativeTimeMs := it.2.2.renderTime - f,
         epochTime := (if st.renderTimeIsEpoch then it.2.2.renderTime / 1000
           else st.episodeStartEpoch.getD 0 + (it.2.2.renderTime - f) / 1000),
         episodeId := eid, frameCount := it.2.2.frameCount,
         x := round3 it.2.2.x, y := round3 it.2.2.y, z := round3 it.2.2.z,
         yaw := round3 it.2.2.yaw, pitch := round3 it.2.2.pitch }] := by
  refine ⟨?_, ?_, ?_, ?_⟩ <;> simp [processItem, h1]

theorem foldl_processItem_anchor (d : Bool) (eid : ℕ) (f se : ℚ) :
    ∀ (items : List WorkItem) (st : WorkerState),
      st.firstRenderTime = some f →
      st.episodeStartEpoch = some se →
      (st.renderTimeIsEpoch = true → se = f / 1000) →
      (∀ r ∈ st.actionData, r.relativeTimeMs = r.renderTime - f ∧
        r.epochTime = se + r.relativeTimeMs / 1000) →
      (items.foldl (processItem d eid) st).firstRenderTime = some f ∧
      (items.foldl (processItem d eid) st).episodeStartEpoch = some se ∧
      (items.foldl (processItem d eid) st).renderTimeIsEpoch = st.renderTimeIsEpoch ∧
      (∀ r ∈ (items.foldl (processItem d eid) st).actionData,
        r.relativeTimeMs = r.renderTime - f ∧
        r.epochTime = se + r.relativeTimeMs / 1000) := by
  intro items
  induction items with
  | nil => intro st h1 h2 h3 h4; exact ⟨h1, h2, rfl, h4⟩
  | cons it rest ih =>
    intro st h1 h2 h3 h4
    have hf := processItem_fields d eid f st it h1
    have hgd : st.episodeStartEpoch.getD 0 = se := by
      rw [h2]
      rfl
    have hstep4 : ∀ r ∈ (processItem d eid st it).actionData,
        r.relativeTimeMs = r.renderTime - f ∧
        r.epochTime = se + r.relativeTimeMs / 1000 := by
      intro r hr
      rw [hf.2.2.2] at hr
      rcases List.mem_append.mp hr with hold | hnew
      · exact h4 r hold
      · rw [List.mem_singleton] at hnew
        subst hnew
        refine ⟨rfl, ?_⟩
        show (if st.renderTimeIsEpoch then it.2.2.renderTime / 1000
          else st.episodeStartEpoch.getD 0 + (it.2.2.renderTime - f) / 1000) =
          se + (it.2.2.renderTime - f) / 1000
        rw [hgd]
        by_cases hb : st.renderTimeIsEpoch = true
        · rw [if_pos hb, h3 hb]
          ring
        · rw [if_neg (by simpa using hb)]
    have hrec := ih (processItem d eid st it) hf.1 (by rw [hf.2.1, hgd])
      (fun hb => h3 (by rw [hf.2.2.1] at hb; exact hb)) hstep4
    simp only [List.foldl_cons]
    exact ⟨hrec.1, hrec.2.1, hrec.2.2.1.trans hf.2.2.1, hrec.2.2.2⟩

theorem processItem_init_epoch (d : Bool) (eid : ℕ) (now : ℚ) (img : RecvImage)
    (pos : InputPos) (hmag : pos.renderTime ≥ 1000000000000) :
    processItem d eid initialWorkerState (now, img, pos) =
      { firstRenderTime := some pos.renderTime,
        episodeStartEpoch := some (pos.renderTime / 1000),
        renderTimeIsEpoch := true,
        actionData :=
          [{ renderTime := pos.renderTime,
             relativeTimeMs := pos.renderTime - pos.renderTime,
             epochTime := pos.renderTime / 1000,
             episodeId := eid, frameCount := pos.frameCount,
             x := round3 pos.x, y := round3 pos.y, z := round3 pos.z,
             yaw := round3 pos.yaw, pitch := round3 pos.pitch }],
        frames := (if d then [] else if img.valid then [img] else []) } := by
  simp [processItem, initialWorkerState, hmag]

theorem processItem_init_rel (d : Bool) (eid : ℕ) (now : ℚ) (img : RecvImage)
    (pos : InputPos) (hmag : ¬(pos.renderTime ≥ 1000000000000)) :
    processItem d eid initialWorkerState (now, img, pos) =
      { firstRenderTime := some pos.renderTime,
        episodeStartEpoch := some (now - pos.renderTime / 1000),
        renderTimeIsEpoch := false,
        actionData :=
          [{ renderTime := pos.renderTime,
             relativeTimeMs := pos.renderTime - pos.renderTime,
             epochTime := (now - pos.renderTime / 1000) +
               (pos.renderTime - pos.renderTime) / 1000,
             episodeId := eid, frameCount := pos.frameCount,
             x := round3 pos.x, y := round3 pos.y, z := round3 pos.z,
             yaw := round3 pos.yaw, pitch := round3 pos.pitch }],
        frames := (if d then [] else if img.valid then [img] else []) } := by
  simp [processItem, initialWorkerState, hmag]

/-- C6: the `renderTime` of the first position record anchors the episode: when
it is at least `1e12` the worker marks `render_time_is_epoch` and sets
`episode_start_epoch = renderTime / 1000`, otherwise it sets
`episode_start_epoch = now - renderTime / 1000` (wall clock at the first
record); in both cases the `relativeTimeMs` of every record is its
`renderTime` minus the first `renderTime`, and the `epochTime` of every
record equals
`episode_start_epoch + relativeTimeMs / 1000`. -/
theorem worker_epoch_anchoring (d : Bool) (eid : ℕ) (now : ℚ) (img : RecvImage)
    (pos : InputPos) (rest : List WorkItem) :
    (pos.renderTime ≥ 1000000000000 →
      (runWorker d eid ((now, img, pos) :: rest)).renderTimeIsEpoch = true ∧
      (runWorker d eid ((now, img, pos) :: rest)).episodeStartEpoch =
        some (pos.renderTime / 1000)) ∧
    (¬(pos.renderTime ≥ 1000000000000) →
      (runWorker d eid ((now, img, pos) :: rest)).renderTimeIsEpoch = false ∧
      (runWorker d eid ((now, img, pos) :: rest)).episodeStartEpoch =
        some (now - pos.renderTime / 1000)) ∧
    (∀ r ∈ (runWorker d eid ((now, img, pos) :: rest)).actionData,
      r.relativeTimeMs = r.renderTime - pos.renderTime ∧
      r.epochTime =
        (runWorker d eid ((now, img, pos) :: rest)).episodeStartEpoch.getD 0 +
          r.relativeTimeMs / 1000) := by
  have hrun : runWorker d eid ((now, img, pos) :: rest) =
      rest.foldl (processItem d eid)
        (processItem d eid initialWorkerState (now, img, pos)) := by
    simp [runWorker]
  by_cases hmag : pos.renderTime ≥ 1000000000000
  · have heq := processItem_init_epoch d eid now img pos hmag
    have hst4 : ∀ r ∈ (processItem d eid initialWorkerState (now, img, pos)).actionData,
        r.relativeTimeMs = r.renderTime - pos.renderTime ∧
        r.epochTime = pos.renderTime / 1000 + r.relativeTimeMs / 1000 := by
      intro r hr
      rw [heq] at hr
      rw [List.mem_singleton] at hr
      subst hr
      refine ⟨rfl, ?_⟩
      show pos.renderTime / 1000 =
        pos.renderTime / 1000 + (pos.renderTime - pos.renderTime) / 1000
      ring
    have hrec := foldl_processItem_anchor d eid pos.renderTime (pos.renderTime / 1000)
      rest (processItem d eid initialWorkerState (now, img, pos))
      (by rw [heq]) (by rw [heq]) (fun _ => rfl) hst4
    rw [hrun]
    refine ⟨fun _ => ⟨hrec.2.2.1.trans (by rw [heq]), hrec.2.1⟩,
      fun hc => absurd hmag hc, ?_⟩
    intro r hr
    have hpr := hrec.2.2.2 r hr
    rw [hrec.2.1]
    simpa using hpr
  · have heq := processItem_init_rel d eid now img pos hmag
    have hst4 : ∀ r ∈ (processItem d eid initialWorkerState (now, img, pos)).actionData,
        r.relativeTimeMs = r.renderTime - pos.renderTime ∧
        r.epochTime = (now - pos.renderTime / 1000) + r.relativeTimeMs / 1000 := by
      intro r hr
      rw [heq] at hr
      rw [List.mem_singleton] at hr
      subst hr
      exact ⟨rfl, rfl⟩
    have hrec := foldl_processItem_anchor d eid pos.renderTime
      (now - pos.renderTime / 1000) rest
      (processItem d eid initialWorkerState (now, img, pos))
      (by rw [heq]) (by rw [heq])
      (fun hb => absurd ((by rw [heq] : (processItem d eid initialWorkerState
        (now, img, pos)).renderTimeIsEpoch = false) ▸ hb) (by simp)) hst4
    rw [hrun]
    refine ⟨fun hc => absurd hc hmag,
      fun _ => ⟨hrec.2.2.1.trans (by rw [heq]), hrec.2.1⟩, ?_⟩
    intro r hr
    have hpr := hrec.2.2.2 r hr
    rw [hrec.2.1]
    simpa using hpr

/-- Witness for C6 at a concrete input (epoch-magnitude `renderTime`). -/
theorem worker_epoch_anchoring_witness :
    ((⟨2000000000000, 0, 1, 2, 3, 0, 0⟩ : InputPos).renderTime ≥ 1000000000000) ∧
    ((runWorker false 0 [((5 : ℚ), RecvImage.mat 1,
        (⟨2000000000000, 0, 1, 2, 3, 0, 0⟩ : InputPos))]).renderTimeIsEpoch = true ∧
      (runWorker false 0 [((5 : ℚ), RecvImage.mat 1,
        (⟨2000000000000, 0, 1, 2, 3, 0, 0⟩ : InputPos))]).episodeStartEpoch =
        some ((⟨2000000000000, 0, 1, 2, 3, 0, 0⟩ : InputPos).renderTime / 1000)) :=
  ⟨by decide,
    (worker_epoch_anchoring false 0 5 (RecvImage.mat 1)
      ⟨2000000000000, 0, 1, 2, 3, 0, 0⟩ []).1 (by decide)⟩

theorem recvint_short (stream : List ℕ) (h : stream.length < 4) :
    recvint stream = none := by
  rw [recvint, recvall, if_neg (by omega)]
  rfl

theorem recvint_append (b0 b1 b2 b3 : ℕ) (rest : List ℕ) :
    recvint ([b0, b1, b2, b3] ++ rest) = some (fromLE [b0, b1, b2, b3], rest) := by
  have h4 : ([b0, b1, b2, b3] : List ℕ).length = 4 := rfl
  have hlen : 4 ≤ ([b0, b1, b2, b3] ++ rest).length := by
    simp
  rw [recvint, recvall, if_pos hlen]
  rw [Option.map_some']
  rw [← h4, List.take_left, List.drop_left]

/-- C4 counterexample: a connection that closes before the 4 length bytes
arrive (empty stream, or a 1-byte truncated length) is reported by the
position read of the server exactly like the zero-length terminator — both are
`normalEnd` — so close-during-length-read is NOT distinguishable from the
terminator. -/
theorem position_read_eof_counterexample :
    readPositionFrame [] = .normalEnd ∧
    readPositionFrame [7] = .normalEnd ∧
    readPositionFrame [0, 0, 0, 0] = .normalEnd := by
  exact ⟨by decide, by decide, by decide⟩

/-- C4 amended: a zero length prefix is the valid terminator (normal end),
and a connection that closes after a nonzero length but before the full
payload is a transport error distinct from it; but a connection that
closes before the 4 length bytes arrive is reported identically to the
terminator (the `recvint` exception is caught and turned into length 0),
not as a distinct EOF outcome. -/
theorem position_read_outcomes (stream : List ℕ) (b0 b1 b2 b3 : ℕ) (rest : List ℕ) :
    (stream.length < 4 → readPositionFrame stream = .normalEnd) ∧
    (readPositionFrame ([0, 0, 0, 0] ++ rest) = .normalEnd) ∧
    (fromLE [b0, b1, b2, b3] ≠ 0 → rest.length < fromLE [b0, b1, b2, b3] →
      readPositionFrame ([b0, b1, b2, b3] ++ rest) = .transportError) ∧
    (fromLE [b0, b1, b2, b3] ≠ 0 → fromLE [b0, b1, b2, b3] ≤ rest.length →
      readPositionFrame ([b0, b1, b2, b3] ++ rest) =
        .frame (rest.take (fromLE [b0, b1, b2, b3]))
          (rest.drop (fromLE [b0, b1, b2, b3]))) := by
  refine ⟨?_, ?_, ?_, ?_⟩
  · intro h
    simp [readPositionFrame, recvint_short stream h]
  · simp only [readPositionFrame, recvint_append 0 0 0 0 rest]
    rfl
  · intro hnz hshort
    simp only [readPositionFrame, recvint_append b0 b1 b2 b3 rest]
    rw [if_neg hnz, recvall, if_neg (by omega)]
  · intro hnz hlong
    simp only [readPositionFrame, recvint_append b0 b1 b2 b3 rest]
    rw [if_neg hnz, recvall, if_pos hlong]

/-- Witness for the amended clauses of C4 at concrete inputs. -/
theorem position_read_outcomes_witness :
    ([9] : List ℕ).length < 4 ∧ readPositionFrame [9] = .normalEnd ∧
    fromLE [2, 0, 0, 0] ≠ 0 ∧ ([5] : List ℕ).length < fromLE [2, 0, 0, 0] ∧
    readPositionFrame ([2, 0, 0, 0] ++ [5]) = .transportError :=
  ⟨by decide,
    (position_read_outcomes [9] 2 0 0 0 [5]).1 (by decide),
    by decide, by decide,
    (position_read_outcomes [9] 2 0 0 0 [5]).2.2.1 (by decide) (by decide)⟩

/-- C7: `align_recording` errors (producing no mapping) whenever timestamp
extraction failed or the extracted timestamps are not classified as
wallclock, and it gets past the wallclock gate exactly when the metadata
flag is set or the first extracted PTS exceeds `1e9`. -/
theorem align_wallclock_gate (ts : List ℚ) (flag : Bool)
    (actionTimes : List ℚ) (fps : ℚ) (hne : ts ≠ []) :
    (alignOutcome none flag actionTimes fps = .error .notWallclock) ∧
    (hasWallclockTimestamps ts flag = true ↔
      flag = true ∨ ts.headD 0 > 1000000000) ∧
    (alignOutcome (some ts) flag actionTimes fps ≠ .error .notWallclock ↔
      flag = true ∨ ts.headD 0 > 1000000000) := by
  have hgate : hasWallclockTimestamps ts flag = true ↔
      flag = true ∨ ts.headD 0 > 1000000000 := by
    cases hts : ts with
    | nil => exact absurd hts hne
    | cons t rest =>
      cases flag with
      | true => simp [hasWallclockTimestamps]
      | false => simp [hasWallclockTimestamps]
  refine ⟨rfl, hgate, ?_⟩
  rw [← hgate]
  constructor
  · intro hne2
    by_cases hg : hasWallclockTimestamps ts flag = true
    · exact hg
    · exact absurd (by simp [alignOutcome, hg]) hne2
  · intro hg
    simp only [alignOutcome, hg, if_true]
    by_cases hempty : (matchActionsToFrames actionTimes ts fps).1 = []
    · simp [hempty]
    · simp [hempty]

/-- Witness for C7 at a concrete input. -/
theorem align_wallclock_gate_witness :
    ([2000000000] : List ℚ) ≠ [] ∧
    (hasWallclockTimestamps [2000000000] false = true ↔
      false = true ∨ ([2000000000] : List ℚ).headD 0 > 1000000000) :=
  ⟨by decide,
    (align_wallclock_gate [2000000000] false [1] 20 (by decide)).2.1⟩

theorem gapEntryAt_eq_some (ft : List ℚ) (fps : ℚ) (i : ℕ) (e : GapEntry) :
    gapEntryAt ft fps i = some e ↔
      ((ft.getD i 0 - ft.getD (i - 1) 0 > (1 / fps) * 1.8 ∧
        ft.getD (i - 1) 0 - ft.getD 0 0 > 10) ∧
       e = { frameBefore := i - 1, frameAfter := i,
             gapSec := round4 (ft.getD i 0 - ft.getD (i - 1) 0),
             expectedFramesMissed :=
               pyRound ((ft.getD i 0 - ft.getD (i - 1) 0) / (1 / fps)) - 1 }) := by
  simp only [gapEntryAt]
  by_cases hc : ft.getD i 0 - ft.getD (i - 1) 0 > (1 / fps) * 1.8 ∧
      ft.getD (i - 1) 0 - ft.getD 0 0 > 10
  · rw [if_pos hc]
    simp only [Option.some.injEq]
    constructor
    · intro h
      exact ⟨hc, h.symm⟩
    · intro h
      exact h.2.symm
  · rw [if_neg hc]
    simp only [false_iff, reduceCtorEq]
    intro h
    exact hc h.1

/-- C9 counterexample: with `fps = 1` and frame times `[0, 11, 16]`, the
pair `(frame 1, frame 2)` at times `11` and `16` lies within the 10-second
grace window of the recording end (`16 - 16 ≤ 10` and `16 - 11 ≤ 10`), yet
the code reports it as a dropped-frame gap — the end grace window is never
consulted. -/
theorem dropped_gap_end_grace_counterexample :
    (matchActionsToFrames [0] [0, 11, 16] 1).2.droppedFrameGapsList =
      [{ frameBefore := 1, frameAfter := 2, gapSec := 5,
         expectedFramesMissed := 4 }] ∧
    (16 : ℚ) - 16 ≤ 10 ∧ (16 : ℚ) - 11 ≤ 10 := by
  refine ⟨?_, by norm_num, by norm_num⟩
  rw [matchActionsToFrames_gaps]
  norm_num [droppedGaps, gapEntryAt, List.range', round4, pyRound,
    List.filterMap_cons, List.filterMap_nil]

/-- C9 amended: a consecutive pair `(i-1, i)` of frame timestamps is
reported in `dropped_frame_gaps` exactly when the gap exceeds 1.8 times
the expected interval `1/fps` AND the earlier timestamp is more than 10
seconds after the recording start — the recording-end grace window is not
consulted; each reported gap carries an estimated missed-frame count of
`round(gap / expected_interval) - 1`. -/
theorem dropped_gap_characterization (frameTimes : List ℚ) (fps : ℚ)
    (actionTimes : List ℚ) (i : ℕ) (h0 : 0 < i) (hi : i < frameTimes.length) :
    ((∃ e ∈ (matchActionsToFrames actionTimes frameTimes fps).2.droppedFrameGapsList,
        e.frameBefore = i - 1 ∧ e.frameAfter = i) ↔
      (frameTimes.getD i 0 - frameTimes.getD (i - 1) 0 > (1 / fps) * 1.8 ∧
       frameTimes.getD (i - 1) 0 - frameTimes.getD 0 0 > 10)) ∧
    (∀ e ∈ (matchActionsToFrames actionTimes frameTimes fps).2.droppedFrameGapsList,
      e.frameAfter = i →
      e.frameBefore = i - 1 ∧
      e.gapSec = round4 (frameTimes.getD i 0 - frameTimes.getD (i - 1) 0) ∧
      e.expectedFramesMissed =
        pyRound ((frameTimes.getD i 0 - frameTimes.getD (i - 1) 0) / (1 / fps)) - 1) := by
  have hmemrange : i ∈ List.range' 1 (frameTimes.length - 1) := by
    rw [List.mem_range'_1]
    omega
  simp only [matchActionsToFrames_gaps, droppedGaps]
  constructor
  · constructor
    · rintro ⟨e, he, hb, ha⟩
      obtain ⟨j, hj, hsome⟩ := List.mem_filterMap.mp he
      obtain ⟨hcond, hee⟩ := (gapEntryAt_eq_some frameTimes fps j e).mp hsome
      have hji : j = i := by
        rw [hee] at ha
        simpa using ha
      rw [← hji]
      exact hcond
    · intro hcond
      exact ⟨_, List.mem_filterMap.mpr ⟨i, hmemrange,
        (gapEntryAt_eq_some frameTimes fps i _).mpr ⟨hcond, rfl⟩⟩, rfl, rfl⟩
  · intro e he hai
    obtain ⟨j, hj, hsome⟩ := List.mem_filterMap.mp he
    obtain ⟨hcond, hee⟩ := (gapEntryAt_eq_some frameTimes fps j e).mp hsome
    have hji : j = i := by
      rw [hee] at hai
      simpa using hai
    subst hji
    rw [hee]
    exact ⟨rfl, rfl, rfl⟩

/-- Witness for the amended characterization of C9 at a concrete input. -/
theorem dropped_gap_characterization_witness :
    (0 < 2 ∧ 2 < ([0, 11, 16] : List ℚ).length) ∧
    ((∃ e ∈ (matchActionsToFrames [0] [0, 11, 16] 1).2.droppedFrameGapsList,
        e.frameBefore = 2 - 1 ∧ e.frameAfter = 2) ↔
      (([0, 11, 16] : List ℚ).getD 2 0 - ([0, 11, 16] : List ℚ).getD (2 - 1) 0 >
        (1 / (1 : ℚ)) * 1.8 ∧
       ([0, 11, 16] : List ℚ).getD (2 - 1) 0 - ([0, 11, 16] : List ℚ).getD 0 0 > 10)) :=
  ⟨⟨by decide, by decide⟩,
    (dropped_gap_characterization [0, 11, 16] 1 [0] 2 (by decide) (by decide)).1⟩
